import Mathlib

/-!
Verification of the `ring_buffer<T, S>` class from `src/ringbuffer.h`.

The C++ class keeps a fixed backing store `std::array<T, S>` together
with two free-running `std::size_t` cursors `m_cwrite` and `m_cread`;
all cursor arithmetic is the 64-bit unsigned arithmetic of `size_t`.
We embed the state as a Lean structure whose cursors are natural
numbers kept below `2^64` by taking every cursor update modulo `W`,
where `W = 2^64` is the value range of `size_t`.  The backing array is
a `List T` of length `S`.
-/

/-- Value range of `std::size_t` / `index_type`: `2 ^ 64`. -/
def W : Nat := 18446744073709551616

theorem W_eq_pow : W = 2 ^ 64 := by decide

/-- State of `ring_buffer<T, S>` from `src/ringbuffer.h`: backing array
`m_storage`, write cursor `m_cwrite` and read cursor `m_cread`
(both `index_type = std::size_t`). -/
structure ring_buffer (T : Type) (S : Nat) where
  m_storage : List T
  m_cwrite : Nat
  m_cread : Nat
deriving Repr, DecidableEq

namespace ring_buffer

variable {T : Type} [Inhabited T] {S : Nat}

/-- The member constant `m_mask = S - 1`. -/
def mask (S : Nat) : Nat := S - 1

/-- Unsigned 64-bit subtraction `a - b` on `size_t` values. -/
def usub (a b : Nat) : Nat := (a + W - b % W) % W

/-- Conversion of a signed 64-bit value to `size_t` (the implicit
conversion applied to the `ssize_t` argument `len` when it is compared
against the unsigned `size() - count()`). -/
def toUns (z : Int) : Nat := (z % (18446744073709551616 : Int)).toNat

/-- The default constructor `ring_buffer()`: both cursors zero, the
backing array default-constructed (here: an arbitrary list `st`). -/
def init (st : List T) : ring_buffer T S := ⟨st, 0, 0⟩

/-- `is_empty()`: `m_cwrite == m_cread`. -/
def is_empty (b : ring_buffer T S) : Bool := b.m_cwrite == b.m_cread

/-- `is_full()`: `((index_type)(m_cwrite - m_cread) & (index_type)~(m_mask)) != 0`.
The 64-bit complement `~m_mask` is `(W - 1) - m_mask`. -/
def is_full (b : ring_buffer T S) : Bool :=
  (usub b.m_cwrite b.m_cread) &&& ((W - 1) - mask S) != 0

/-- `count()`: `(m_cwrite - m_cread) & m_mask`. -/
def count (b : ring_buffer T S) : Nat :=
  (usub b.m_cwrite b.m_cread) &&& mask S

/-- `size()`: the capacity `S`. -/
def size (_b : ring_buffer T S) : Nat := S

/-- `bool read(value_type & value)`: on an empty buffer returns `false`
leaving the out-parameter untouched; otherwise copies
`m_storage[m_cread & m_mask]` into the out-parameter, post-increments
`m_cread` and returns `true`.  The result bundles
(return value, out-parameter after the call, buffer after the call). -/
def read (b : ring_buffer T S) (value : T) : Bool × T × ring_buffer T S :=
  if b.is_empty then (false, value, b)
  else (true, b.m_storage.getD (b.m_cread &&& mask S) default,
        { b with m_cread := (b.m_cread + 1) % W })

/-- `optional<value_type> read()`: the optional-returning overload. -/
def readOpt (b : ring_buffer T S) : Option T × ring_buffer T S :=
  if !b.is_empty then
    (some (b.m_storage.getD (b.m_cread &&& mask S) default),
     { b with m_cread := (b.m_cread + 1) % W })
  else (none, b)

/-- `bool write(const value_type & value)` (the move overload has the
same state semantics): on a full buffer returns `false`; otherwise
stores the value at `m_storage[m_cwrite & m_mask]`, post-increments
`m_cwrite` and returns `true`. -/
def write (b : ring_buffer T S) (value : T) : Bool × ring_buffer T S :=
  if b.is_full then (false, b)
  else (true, { b with
                m_storage := b.m_storage.set (b.m_cwrite &&& mask S) value,
                m_cwrite := (b.m_cwrite + 1) % W })

/-- `clear()`: `m_cread = 0; m_cwrite = 0;`. -/
def clear (b : ring_buffer T S) : ring_buffer T S :=
  { b with m_cwrite := 0, m_cread := 0 }

/-- The element the bulk write reads at offset `i`: `ptr[i]`, with the
external contiguous source modelled as a list. -/
def bulk_items (ps : List T) (n : Nat) : List T :=
  (List.range n).map (fun i => ps.getD i default)

/-- The loop `while(i < len) write(ptr[i++]);` of the bulk write:
successive single-element writes whose return values are ignored. -/
def run_writes : ring_buffer T S → List T → ring_buffer T S
  | b, [] => b
  | b, v :: vs => run_writes (b.write v).2 vs

/-- `bool write(const void * const p, ssize_t len)`: fails when
`!len` or when the unsigned free space `size() - count()` is smaller
than `len` converted to `size_t`; otherwise runs the write loop, whose
signed condition `i < len` executes `max len 0 = len.toNat` iterations,
and returns `true`. -/
def write_bulk (b : ring_buffer T S) (ps : List T) (len : Int) :
    Bool × ring_buffer T S :=
  if len = 0 ∨ usub S b.count < toUns len then (false, b)
  else (true, run_writes b (bulk_items ps len.toNat))

/-- `operator[](i)`: throws `std::out_of_range` when the buffer is empty
or `i > count()`; otherwise yields `m_storage[(m_cread + i) & m_mask]`
(the sum `m_cread + i` is `size_t` addition). -/
def get_at (b : ring_buffer T S) (i : Nat) : Except String T :=
  if b.is_empty || decide (i > b.count) then
    Except.error "index located in invalid range for access ring buffer"
  else
    Except.ok (b.m_storage.getD (((b.m_cread + i) % W) &&& mask S) default)

/-- `first()`: `operator[](0)`. -/
def first (b : ring_buffer T S) : Except String T := b.get_at 0

/-- `last()`: `operator[](count() - 1)`, the subtraction being `size_t`
subtraction (it wraps to `W - 1` when `count()` is zero). -/
def last (b : ring_buffer T S) : Except String T := b.get_at (usub b.count 1)

/-- The raw unmasked cursor difference `m_cwrite - m_cread` in `size_t`
arithmetic: the number of occupied slots on every machine-reachable
state. -/
def cdiff (b : ring_buffer T S) : Nat := usub b.m_cwrite b.m_cread

/-- Abstraction of the buffer state: the logical FIFO content, oldest
first, element `i` living at storage index `(m_cread + i) mod S`. -/
def toList (b : ring_buffer T S) : List T :=
  (List.range (cdiff b)).map (fun i => b.m_storage.getD ((b.m_cread + i) % S) default)

/-- Well-formedness of a machine state: cursors are `size_t` values,
the occupied-slot count never exceeds the capacity, and the backing
array has exactly `S` slots. -/
def Inv (b : ring_buffer T S) : Prop :=
  b.m_cwrite < W ∧ b.m_cread < W ∧ cdiff b ≤ S ∧ b.m_storage.length = S

/-- One mutating API call, with arbitrary arguments. -/
inductive Step : ring_buffer T S → ring_buffer T S → Prop
  | write (b : ring_buffer T S) (v : T) : Step b (b.write v).2
  | read (b : ring_buffer T S) (x : T) : Step b (b.read x).2.2
  | readOpt (b : ring_buffer T S) : Step b b.readOpt.2
  | write_bulk (b : ring_buffer T S) (ps : List T) (len : Int) :
      Step b (b.write_bulk ps len).2
  | clear (b : ring_buffer T S) : Step b b.clear

/-- States reachable from a freshly constructed buffer by any sequence
of API calls. -/
inductive Reachable : ring_buffer T S → Prop
  | init (st : List T) (h : st.length = S) : Reachable (init st)
  | step {b b' : ring_buffer T S} : Reachable b → Step b b' → Reachable b'

/-- A sequence of single-element writes; the flag records whether every
write in the sequence returned `true`. -/
def write_seq : ring_buffer T S → List T → Bool × ring_buffer T S
  | b, [] => (true, b)
  | b, v :: vs =>
    let r := b.write v
    let rest := write_seq r.2 vs
    (r.1 && rest.1, rest.2)

/-- A sequence of `n` reads through the optional-returning overload,
collecting the successfully read values in order. -/
def read_n : ring_buffer T S → Nat → List T × ring_buffer T S
  | b, 0 => ([], b)
  | b, n + 1 =>
    let r := b.readOpt
    let rest := read_n r.2 n
    (match r.1 with
     | some v => v :: rest.1
     | none => rest.1, rest.2)

/-- Concrete scenario state: a fresh buffer of capacity 4 over `Nat`. -/
def demo0 : ring_buffer Nat 4 := init [0, 0, 0, 0]

/-- Scenario state after writing 1, 2, 3, 4. -/
def demo4 : ring_buffer Nat 4 := (write_seq demo0 [1, 2, 3, 4]).2

/-- Scenario state after one subsequent read. -/
def demo5 : ring_buffer Nat 4 := demo4.readOpt.2

/-- Scenario state after then writing 5. -/
def demo6 : ring_buffer Nat 4 := (demo5.write 5).2

/-! ### Arithmetic facts about the mask and the cursor difference -/

theorem W_pos : 0 < W := by decide

theorem and_mask_eq_mod {k : Nat} (hS : S = 2 ^ k) (x : Nat) :
    x &&& mask S = x % S := by
  subst hS
  exact Nat.and_pow_two_sub_one_eq_mod x k

theorem S_dvd_W {k : Nat} (hS : S = 2 ^ k) (hk : k ≤ 64) : S ∣ W := by
  rw [hS, W_eq_pow]
  exact Nat.pow_dvd_pow 2 hk

theorem S_le_W {k : Nat} (hS : S = 2 ^ k) (hk : k ≤ 64) : S ≤ W :=
  Nat.le_of_dvd W_pos (S_dvd_W hS hk)

theorem mod_W_mod_S {k : Nat} (hS : S = 2 ^ k) (hk : k ≤ 64) (a : Nat) :
    a % W % S = a % S :=
  Nat.mod_mod_of_dvd a (S_dvd_W hS hk)

theorem add_mod_W_mod_S {k : Nat} (hS : S = 2 ^ k) (hk : k ≤ 64) (a i : Nat) :
    (a % W + i) % S = (a + i) % S := by
  rw [Nat.add_mod, mod_W_mod_S hS hk, ← Nat.add_mod]

theorem testBit_compl_mask {k : Nat} (hk : k ≤ 64) (i : Nat) :
    ((2 ^ 64 - 2 ^ k : Nat)).testBit i = (decide (k ≤ i) && decide (i < 64)) := by
  have hM : (2 ^ 64 - 2 ^ k : Nat) = 2 ^ k * (2 ^ (64 - k) - 1) := by
    rw [Nat.mul_sub, Nat.mul_one, ← pow_add]
    congr 2
    omega
  rw [hM, Nat.testBit_mul_pow_two, Nat.testBit_two_pow_sub_one]
  by_cases h : k ≤ i
  · simp only [ge_iff_le, h, decide_True, Bool.true_and]
    rw [decide_eq_decide]
    omega
  · simp [h]

theorem and_compl_mask_eq_zero_iff {k : Nat} (hk : k ≤ 64) {D : Nat} (hD : D < W) :
    (D &&& ((W - 1) - (2 ^ k - 1)) = 0) ↔ D < 2 ^ k := by
  have h2 : (2 : Nat) ^ k ≤ 2 ^ 64 := Nat.pow_le_pow_right (by norm_num) hk
  have hWD : D < 2 ^ 64 := by rw [← W_eq_pow]; exact hD
  have hre : (W - 1) - (2 ^ k - 1) = 2 ^ 64 - 2 ^ k := by
    have h1 : (1 : Nat) ≤ 2 ^ k := Nat.one_le_two_pow
    rw [W_eq_pow]
    omega
  rw [hre]
  constructor
  · intro h
    have hb : ∀ i, k ≤ i → D.testBit i = false := by
      intro i hi
      by_cases h64 : i < 64
      · have := congrArg (fun x => Nat.testBit x i) h
        simp only [Nat.testBit_land, Nat.zero_testBit, testBit_compl_mask hk,
          hi, h64, decide_True, Bool.and_true] at this
        exact this
      · exact Nat.testBit_lt_two_pow
          (lt_of_lt_of_le hWD (Nat.pow_le_pow_right (by norm_num) (by omega)))
    have hDeq : D = D % 2 ^ k := by
      apply Nat.eq_of_testBit_eq
      intro i
      rw [Nat.testBit_mod_two_pow]
      by_cases hik : i < k
      · simp [hik]
      · simp [hik, hb i (by omega)]
    rw [hDeq]
    exact Nat.mod_lt _ (Nat.pos_pow_of_pos k (by norm_num))
  · intro h
    apply Nat.eq_of_testBit_eq
    intro i
    rw [Nat.testBit_land, Nat.zero_testBit, testBit_compl_mask hk]
    by_cases hik : k ≤ i
    · have : D.testBit i = false :=
        Nat.testBit_lt_two_pow
          (lt_of_lt_of_le h (Nat.pow_le_pow_right (by norm_num) hik))
      simp [this]
    · simp [hik]

theorem cdiff_lt_W (b : ring_buffer T S) : cdiff b < W :=
  Nat.mod_lt _ W_pos

theorem is_full_iff {k : Nat} (hS : S = 2 ^ k) (hk : k ≤ 64) (b : ring_buffer T S) :
    b.is_full = true ↔ S ≤ cdiff b := by
  subst hS
  have hiff := and_compl_mask_eq_zero_iff (k := k) hk (cdiff_lt_W b)
  simp only [is_full, mask, bne_iff_ne, ne_eq]
  have hu : usub b.m_cwrite b.m_cread = cdiff b := rfl
  rw [hu]
  constructor
  · intro h
    by_contra hc
    exact h (hiff.mpr (by omega))
  · intro h hc
    have := hiff.mp hc
    omega

theorem is_full_false {k : Nat} (hS : S = 2 ^ k) (hk : k ≤ 64) (b : ring_buffer T S)
    (h : cdiff b < S) : b.is_full = false := by
  rw [← Bool.not_eq_true, is_full_iff hS hk]
  omega

theorem is_empty_iff (b : ring_buffer T S)
    (hw : b.m_cwrite < W) (hr : b.m_cread < W) :
    b.is_empty = true ↔ cdiff b = 0 := by
  rw [is_empty, beq_iff_eq]
  unfold cdiff usub W at *
  constructor <;> intro h <;> omega

theorem is_empty_false (b : ring_buffer T S)
    (hw : b.m_cwrite < W) (hr : b.m_cread < W) (h : 0 < cdiff b) :
    b.is_empty = false := by
  rw [← Bool.not_eq_true, is_empty_iff b hw hr]
  omega

theorem count_eq_mod {k : Nat} (hS : S = 2 ^ k) (b : ring_buffer T S) :
    b.count = cdiff b % S :=
  and_mask_eq_mod hS _

/-! ### State effects of the single-element operations -/

theorem write_full (b : ring_buffer T S) (v : T) (hf : b.is_full = true) :
    b.write v = (false, b) := by
  simp [write, hf]

theorem write_flag (b : ring_buffer T S) (v : T) (hnf : b.is_full = false) :
    (b.write v).1 = true := by
  simp [write, hnf]

theorem write_storage (b : ring_buffer T S) (v : T) (hnf : b.is_full = false) :
    (b.write v).2.m_storage = b.m_storage.set (b.m_cwrite &&& mask S) v := by
  simp [write, hnf]

theorem write_cwrite (b : ring_buffer T S) (v : T) (hnf : b.is_full = false) :
    (b.write v).2.m_cwrite = (b.m_cwrite + 1) % W := by
  simp [write, hnf]

theorem write_cread (b : ring_buffer T S) (v : T) (hnf : b.is_full = false) :
    (b.write v).2.m_cread = b.m_cread := by
  simp [write, hnf]

theorem read_empty (b : ring_buffer T S) (x : T) (he : b.is_empty = true) :
    b.read x = (false, x, b) := by
  simp [read, he]

theorem read_nonempty (b : ring_buffer T S) (x : T) (hne : b.is_empty = false) :
    b.read x = (true, b.m_storage.getD (b.m_cread &&& mask S) default,
                { b with m_cread := (b.m_cread + 1) % W }) := by
  simp [read, hne]

theorem readOpt_empty (b : ring_buffer T S) (he : b.is_empty = true) :
    b.readOpt = (none, b) := by
  simp [readOpt, he]

theorem readOpt_nonempty (b : ring_buffer T S) (hne : b.is_empty = false) :
    b.readOpt = (some (b.m_storage.getD (b.m_cread &&& mask S) default),
                 { b with m_cread := (b.m_cread + 1) % W }) := by
  simp [readOpt, hne]

theorem read_state_eq (b : ring_buffer T S) (x : T) :
    (b.read x).2.2 = b.readOpt.2 := by
  by_cases he : b.is_empty = true
  · simp [read, readOpt, he]
  · rw [Bool.not_eq_true] at he
    simp [read, readOpt, he]

theorem cdiff_write (b : ring_buffer T S) (v : T) (hnf : b.is_full = false) :
    cdiff (b.write v).2 = (cdiff b + 1) % W := by
  simp only [write, hnf, Bool.false_eq_true, if_false]
  unfold cdiff usub
  dsimp only
  unfold W
  omega

theorem cdiff_readOpt (b : ring_buffer T S)
    (hw : b.m_cwrite < W) (hr : b.m_cread < W) (hne : b.is_empty = false) :
    cdiff b.readOpt.2 = cdiff b - 1 := by
  have hneq : b.m_cwrite ≠ b.m_cread := by
    intro hc
    rw [is_empty, hc, beq_self_eq_true] at hne
    cases hne
  simp only [readOpt, hne, Bool.not_false, if_true]
  unfold cdiff usub
  dsimp only
  unfold W at *
  omega

theorem cdiff_pos_of_nonempty (b : ring_buffer T S)
    (hw : b.m_cwrite < W) (hr : b.m_cread < W) (hne : b.is_empty = false) :
    0 < cdiff b := by
  have hneq : b.m_cwrite ≠ b.m_cread := by
    intro hc
    rw [is_empty, hc, beq_self_eq_true] at hne
    cases hne
  unfold cdiff usub W at *
  omega

theorem cdiff_init (st : List T) : cdiff (init (S := S) st) = 0 := by
  simp [cdiff, usub, init, Nat.mod_self]

theorem cdiff_clear (b : ring_buffer T S) : cdiff b.clear = 0 := by
  simp [cdiff, usub, clear, Nat.mod_self]

/-! ### Invariant preservation -/

theorem Inv_init (st : List T) (h : st.length = S) : Inv (init (S := S) st) :=
  ⟨W_pos, W_pos, by rw [cdiff_init]; exact Nat.zero_le S, h⟩

theorem cdiff_lt_of_not_full {k : Nat} (hS : S = 2 ^ k) (hk : k ≤ 64)
    {b : ring_buffer T S} (hnf : b.is_full = false) : cdiff b < S := by
  have := is_full_iff hS hk b
  rw [hnf] at this
  simp only [Bool.false_eq_true, false_iff, not_le] at this
  exact this

theorem Inv_write {k : Nat} (hS : S = 2 ^ k) (hk : k ≤ 64)
    {b : ring_buffer T S} (v : T) (h : Inv b) : Inv (b.write v).2 := by
  obtain ⟨hw, hr, hd, hl⟩ := h
  by_cases hf : b.is_full = true
  · rw [write_full b v hf]
    exact ⟨hw, hr, hd, hl⟩
  · rw [Bool.not_eq_true] at hf
    have hlt : cdiff b < S := cdiff_lt_of_not_full hS hk hf
    have hSW : S ≤ W := S_le_W hS hk
    refine ⟨?_, ?_, ?_, ?_⟩
    · rw [write_cwrite b v hf]
      exact Nat.mod_lt _ W_pos
    · rw [write_cread b v hf]
      exact hr
    · rw [cdiff_write b v hf]
      unfold W at *
      omega
    · rw [write_storage b v hf, List.length_set]
      exact hl

theorem Inv_readOpt {b : ring_buffer T S} (h : Inv b) : Inv b.readOpt.2 := by
  obtain ⟨hw, hr, hd, hl⟩ := h
  by_cases he : b.is_empty = true
  · rw [readOpt_empty b he]
    exact ⟨hw, hr, hd, hl⟩
  · rw [Bool.not_eq_true] at he
    have hcd := cdiff_readOpt b hw hr he
    rw [readOpt_nonempty b he] at hcd ⊢
    exact ⟨hw, Nat.mod_lt _ W_pos, by omega, hl⟩

theorem Inv_read {b : ring_buffer T S} (x : T) (h : Inv b) : Inv (b.read x).2.2 := by
  rw [read_state_eq]
  exact Inv_readOpt h

theorem Inv_clear {b : ring_buffer T S} (h : Inv b) : Inv b.clear :=
  ⟨W_pos, W_pos, by rw [cdiff_clear]; exact Nat.zero_le S, h.2.2.2⟩

theorem Inv_run_writes {k : Nat} (hS : S = 2 ^ k) (hk : k ≤ 64)
    (vs : List T) : ∀ {b : ring_buffer T S}, Inv b → Inv (run_writes b vs) := by
  induction vs with
  | nil => intro b h; exact h
  | cons v vs ih =>
    intro b h
    exact ih (Inv_write hS hk v h)

theorem Inv_write_bulk {k : Nat} (hS : S = 2 ^ k) (hk : k ≤ 64)
    {b : ring_buffer T S} (ps : List T) (len : Int) (h : Inv b) :
    Inv (b.write_bulk ps len).2 := by
  unfold write_bulk
  by_cases hc : len = 0 ∨ usub S b.count < toUns len
  · simp only [hc, if_true]
    exact h
  · simp only [hc, if_false]
    exact Inv_run_writes hS hk _ h

theorem Inv_Reachable {k : Nat} (hS : S = 2 ^ k) (hk : k ≤ 64)
    {b : ring_buffer T S} (h : Reachable b) : Inv b := by
  induction h with
  | init st hst => exact Inv_init st hst
  | step _ hstep ih =>
    cases hstep with
    | write v => exact Inv_write hS hk v ih
    | read x => exact Inv_read x ih
    | readOpt => exact Inv_readOpt ih
    | write_bulk ps len => exact Inv_write_bulk hS hk ps len ih
    | clear => exact Inv_clear ih

/-! ### The FIFO abstraction: `toList` -/

theorem toList_init (st : List T) : toList (init (S := S) st) = [] := by
  simp [toList, cdiff_init]

theorem cw_split (b : ring_buffer T S)
    (hw : b.m_cwrite < W) (hr : b.m_cread < W) :
    b.m_cwrite = b.m_cread + cdiff b ∨ b.m_cwrite + W = b.m_cread + cdiff b := by
  unfold cdiff usub W at *
  omega

theorem cw_mod_S {k : Nat} (hS : S = 2 ^ k) (hk : k ≤ 64) (b : ring_buffer T S)
    (hw : b.m_cwrite < W) (hr : b.m_cread < W) :
    b.m_cwrite % S = (b.m_cread + cdiff b) % S := by
  rcases cw_split b hw hr with h | h
  · rw [h]
  · obtain ⟨m, hm⟩ := S_dvd_W hS hk
    rw [← h, hm, Nat.add_mul_mod_self_left]

theorem add_mod_ne (cr : Nat) {i d SS : Nat} (hi : i < d) (hd : d < SS) :
    (cr + i) % SS ≠ (cr + d) % SS := by
  intro h
  have h1 : i % SS = d % SS := Nat.ModEq.add_left_cancel' cr h
  rw [Nat.mod_eq_of_lt (lt_trans hi hd), Nat.mod_eq_of_lt hd] at h1
  omega

theorem toList_write {k : Nat} (hS : S = 2 ^ k) (hk : k ≤ 63)
    {b : ring_buffer T S} (v : T) (hInv : Inv b) (hnf : b.is_full = false) :
    toList (b.write v).2 = toList b ++ [v] := by
  obtain ⟨hw, hr, hd, hl⟩ := hInv
  have hS0 : 0 < S := by rw [hS]; exact Nat.pos_pow_of_pos k (by norm_num)
  have hlt : cdiff b < S := cdiff_lt_of_not_full hS (by omega) hnf
  have hSW : S < W := by
    calc S ≤ 2 ^ 63 := by rw [hS]; exact Nat.pow_le_pow_right (by norm_num) hk
    _ < W := by decide
  have hcd : cdiff (b.write v).2 = cdiff b + 1 := by
    rw [cdiff_write b v hnf]
    exact Nat.mod_eq_of_lt (by omega)
  have hcr : (b.write v).2.m_cread = b.m_cread := write_cread b v hnf
  have hst : (b.write v).2.m_storage = b.m_storage.set (b.m_cwrite % S) v := by
    rw [write_storage b v hnf, and_mask_eq_mod hS]
  unfold toList
  rw [hcd, hcr, hst, List.range_succ, List.map_append, List.map_singleton]
  congr 1
  · apply List.map_congr_left
    intro i hi
    rw [List.mem_range] at hi
    have hne : b.m_cwrite % S ≠ (b.m_cread + i) % S := by
      rw [cw_mod_S hS (by omega) b hw hr]
      exact (add_mod_ne b.m_cread hi hlt).symm
    rw [List.getD_eq_getElem?_getD, List.getElem?_set_ne hne,
      ← List.getD_eq_getElem?_getD]
  · have hidx : b.m_cwrite % S = (b.m_cread + cdiff b) % S :=
      cw_mod_S hS (by omega) b hw hr
    rw [← hidx, List.getD_eq_getElem?_getD,
      List.getElem?_set_self (by rw [hl]; exact Nat.mod_lt _ hS0),
      Option.getD_some]

theorem toList_readOpt {k : Nat} (hS : S = 2 ^ k) (hk : k ≤ 64)
    {b : ring_buffer T S} (hInv : Inv b) (hne : b.is_empty = false) :
    b.readOpt.1 = some (b.m_storage.getD (b.m_cread % S) default) ∧
    toList b = b.m_storage.getD (b.m_cread % S) default :: toList b.readOpt.2 := by
  obtain ⟨hw, hr, hd, hl⟩ := hInv
  have hpos : 0 < cdiff b := cdiff_pos_of_nonempty b hw hr hne
  have hro := readOpt_nonempty b hne
  have hmask : b.m_cread &&& mask S = b.m_cread % S := and_mask_eq_mod hS _
  constructor
  · rw [hro, hmask]
  · have hcd : cdiff b.readOpt.2 = cdiff b - 1 := cdiff_readOpt b hw hr hne
    obtain ⟨d', hd'⟩ : ∃ d', cdiff b = d' + 1 := ⟨cdiff b - 1, by omega⟩
    unfold toList
    rw [hd', List.range_succ_eq_map, List.map_cons, Nat.add_zero, List.map_map]
    congr 1
    rw [hcd, hd', Nat.add_sub_cancel, hro]
    apply List.map_congr_left
    intro i hi
    simp only [Function.comp_apply]
    congr 1
    rw [add_mod_W_mod_S hS hk]
    congr 1
    omega

/-! ### Sequences of writes and reads -/

theorem write_seq_nil (b : ring_buffer T S) : write_seq b [] = (true, b) := rfl

theorem write_seq_cons (b : ring_buffer T S) (v : T) (vs : List T) :
    write_seq b (v :: vs) =
      ((b.write v).1 && (write_seq (b.write v).2 vs).1,
       (write_seq (b.write v).2 vs).2) := rfl

theorem read_n_zero (b : ring_buffer T S) : read_n b 0 = ([], b) := rfl

theorem read_n_succ (b : ring_buffer T S) (n : Nat) :
    read_n b (n + 1) =
      ((match b.readOpt.1 with
        | some v => v :: (read_n b.readOpt.2 n).1
        | none => (read_n b.readOpt.2 n).1),
       (read_n b.readOpt.2 n).2) := rfl

theorem write_seq_spec {k : Nat} (hS : S = 2 ^ k) (hk : k ≤ 63) :
    ∀ (vs : List T) (b : ring_buffer T S), Inv b → cdiff b + vs.length ≤ S →
    (write_seq b vs).1 = true ∧ Inv (write_seq b vs).2 ∧
    cdiff (write_seq b vs).2 = cdiff b + vs.length ∧
    toList (write_seq b vs).2 = toList b ++ vs := by
  intro vs
  induction vs with
  | nil =>
    intro b hInv _
    rw [write_seq_nil]
    exact ⟨rfl, hInv, by simp, by simp⟩
  | cons v vs ih =>
    intro b hInv h
    have hSW : S < W := by
      calc S ≤ 2 ^ 63 := by rw [hS]; exact Nat.pow_le_pow_right (by norm_num) hk
      _ < W := by decide
    have hlt : cdiff b < S := by
      rw [List.length_cons] at h
      omega
    have hnf : b.is_full = false := is_full_false hS (by omega) b hlt
    have hflag := write_flag b v hnf
    have hInv' := Inv_write hS (by omega) v hInv
    have hcd : cdiff (b.write v).2 = cdiff b + 1 := by
      rw [cdiff_write b v hnf]
      exact Nat.mod_eq_of_lt (by omega)
    have htl := toList_write hS hk v hInv hnf
    obtain ⟨f1, f2, f3, f4⟩ := ih (b.write v).2 hInv'
      (by rw [hcd]; rw [List.length_cons] at h; omega)
    rw [write_seq_cons]
    refine ⟨by rw [hflag, f1]; rfl, f2, ?_, ?_⟩
    · rw [f3, hcd, List.length_cons]
      omega
    · rw [f4, htl]
      simp

theorem read_n_spec {k : Nat} (hS : S = 2 ^ k) (hk : k ≤ 64) :
    ∀ (n : Nat) (b : ring_buffer T S), Inv b → n ≤ cdiff b →
    (read_n b n).1 = (toList b).take n ∧ Inv (read_n b n).2 := by
  intro n
  induction n with
  | zero =>
    intro b hInv _
    rw [read_n_zero]
    exact ⟨by simp, hInv⟩
  | succ n ih =>
    intro b hInv h
    have hne : b.is_empty = false :=
      is_empty_false b hInv.1 hInv.2.1 (by omega)
    obtain ⟨h1, h2⟩ := toList_readOpt hS hk hInv hne
    have hInv' := Inv_readOpt hInv
    have hcd := cdiff_readOpt b hInv.1 hInv.2.1 hne
    obtain ⟨g1, g2⟩ := ih b.readOpt.2 hInv' (by omega)
    rw [read_n_succ]
    constructor
    · rw [h1, h2, g1, List.take_succ_cons]
    · exact g2

end ring_buffer

/-! ## The claims -/

open ring_buffer

/-- C1: On every reachable state of a power-of-two ring buffer,
`is_full()` is true iff the raw unmasked cursor difference
`write_cursor - read_cursor` equals the capacity `S`, while `count()`
returns 0 both when the buffer is empty and when it is exactly full;
`is_full()` and `is_empty()` never hold together, so they distinguish
the two states the masked count conflates. -/
theorem C1_full_empty_disambiguation {T : Type} [Inhabited T] {S k : Nat}
    (hS : S = 2 ^ k) (hk : k ≤ 64) {b : ring_buffer T S} (hb : Reachable b) :
    (b.is_full = true ↔ cdiff b = S) ∧
    (b.is_empty = true → b.count = 0) ∧
    (b.is_full = true → b.count = 0) ∧
    (b.is_full = true → b.is_empty = false) := by
  obtain ⟨hw, hr, hd, hl⟩ := Inv_Reachable hS hk hb
  have hfull := is_full_iff hS hk b
  have hempty := is_empty_iff b hw hr
  have hcount := count_eq_mod hS b
  refine ⟨?_, ?_, ?_, ?_⟩
  · rw [hfull]
    omega
  · intro h
    rw [hempty] at h
    rw [hcount, h, Nat.zero_mod]
  · intro h
    rw [hfull] at h
    have he : cdiff b = S := by omega
    rw [hcount, he, Nat.mod_self]
  · intro h
    rw [hfull] at h
    rw [← Bool.not_eq_true, hempty]
    have hS0 : 0 < S := by rw [hS]; exact Nat.pos_pow_of_pos k (by norm_num)
    omega

/-- Witness for C1 at the fresh capacity-4 buffer over `Nat`. -/
theorem C1_witness :
    ((init [0, 0, 0, 0] : ring_buffer Nat 4).is_full = true ↔
      cdiff (init [0, 0, 0, 0] : ring_buffer Nat 4) = 4) ∧
    ((init [0, 0, 0, 0] : ring_buffer Nat 4).is_empty = true →
      (init [0, 0, 0, 0] : ring_buffer Nat 4).count = 0) ∧
    ((init [0, 0, 0, 0] : ring_buffer Nat 4).is_full = true →
      (init [0, 0, 0, 0] : ring_buffer Nat 4).count = 0) ∧
    ((init [0, 0, 0, 0] : ring_buffer Nat 4).is_full = true →
      (init [0, 0, 0, 0] : ring_buffer Nat 4).is_empty = false) :=
  C1_full_empty_disambiguation (k := 2) rfl (by norm_num)
    (Reachable.init [0, 0, 0, 0] rfl)

/-- C2: writing `v1, ..., vk` (`1 ≤ k ≤ S`) into an initially empty
buffer succeeds for every write, and `k` subsequent reads yield exactly
`v1, ..., vk` in that order. -/
theorem C2_fifo_order {T : Type} [Inhabited T] {S k : Nat}
    (hS : S = 2 ^ k) (hk : k ≤ 63) (st : List T) (hst : st.length = S)
    (vs : List T) (h1 : 1 ≤ vs.length) (h2 : vs.length ≤ S) :
    (write_seq (init (S := S) st) vs).1 = true ∧
    (read_n (write_seq (init (S := S) st) vs).2 vs.length).1 = vs := by
  have hInv0 := Inv_init st hst
  have h0 : cdiff (init (S := S) st) + vs.length ≤ S := by
    rw [cdiff_init]
    omega
  obtain ⟨f1, f2, f3, f4⟩ := write_seq_spec hS hk vs (init st) hInv0 h0
  obtain ⟨g1, _⟩ := read_n_spec hS (by omega) vs.length _ f2
    (by rw [f3, cdiff_init]; omega)
  refine ⟨f1, ?_⟩
  rw [g1, f4, toList_init, List.nil_append, List.take_length]

/-- Witness for C2: writing 7, 8 into a fresh capacity-4 buffer and
reading twice yields 7, 8. -/
theorem C2_witness :
    (write_seq (init [0, 0, 0, 0] : ring_buffer Nat 4) [7, 8]).1 = true ∧
    (read_n (write_seq (init [0, 0, 0, 0] : ring_buffer Nat 4) [7, 8]).2 2).1
      = [7, 8] :=
  C2_fifo_order (k := 2) rfl (by norm_num) [0, 0, 0, 0] rfl [7, 8]
    (by norm_num) (by norm_num)

/-- C3: on every reachable state the unmasked cursor difference lies
between 0 and `S`, and `count()` never exceeds `capacity()` (and, being
a natural number, never goes negative). -/
theorem C3_cursor_invariant {T : Type} [Inhabited T] {S k : Nat}
    (hS : S = 2 ^ k) (hk : k ≤ 64) {b : ring_buffer T S} (hb : Reachable b) :
    cdiff b ≤ S ∧ b.count ≤ b.size ∧ (0 : Int) ≤ (cdiff b : Int) := by
  have hInv := Inv_Reachable hS hk hb
  have hS0 : 0 < S := by rw [hS]; exact Nat.pos_pow_of_pos k (by norm_num)
  refine ⟨hInv.2.2.1, ?_, by omega⟩
  rw [count_eq_mod hS b]
  exact le_of_lt (Nat.mod_lt _ hS0)

/-- Witness for C3 at the fresh capacity-4 buffer over `Nat`. -/
theorem C3_witness :
    cdiff (init [0, 0, 0, 0] : ring_buffer Nat 4) ≤ 4 ∧
    (init [0, 0, 0, 0] : ring_buffer Nat 4).count ≤
      (init [0, 0, 0, 0] : ring_buffer Nat 4).size ∧
    (0 : Int) ≤ (cdiff (init [0, 0, 0, 0] : ring_buffer Nat 4) : Int) :=
  C3_cursor_invariant (k := 2) rfl (by norm_num)
    (Reachable.init [0, 0, 0, 0] rfl)

/-- C4: `write(value)` returns false and leaves the whole state
unchanged on a full buffer; otherwise it stores the value at
`storage[write_cursor & mask]`, advances the write cursor by one
(`size_t` increment) and returns true, leaving the read cursor alone. -/
theorem C4_write_semantics {T : Type} [Inhabited T] {S : Nat}
    (b : ring_buffer T S) (v : T) :
    (b.is_full = true → b.write v = (false, b)) ∧
    (b.is_full = false →
      (b.write v).1 = true ∧
      (b.write v).2.m_storage = b.m_storage.set (b.m_cwrite &&& mask S) v ∧
      (b.write v).2.m_cwrite = (b.m_cwrite + 1) % W ∧
      (b.write v).2.m_cread = b.m_cread) :=
  ⟨write_full b v, fun h =>
    ⟨write_flag b v h, write_storage b v h, write_cwrite b v h,
     write_cread b v h⟩⟩

/-- Witness for C4: a full capacity-1 buffer rejects a write unchanged,
and a fresh capacity-4 buffer accepts one. -/
theorem C4_witness :
    (⟨[0], 1, 0⟩ : ring_buffer Nat 1).write 7 = (false, ⟨[0], 1, 0⟩) ∧
    ((init [0, 0, 0, 0] : ring_buffer Nat 4).write 7).1 = true :=
  ⟨(C4_write_semantics (⟨[0], 1, 0⟩ : ring_buffer Nat 1) 7).1 (by decide),
   ((C4_write_semantics (init [0, 0, 0, 0] : ring_buffer Nat 4) 7).2
     (by decide)).1⟩

/-- C5: `read(out value)` returns false and leaves both the buffer and
the out-parameter unchanged on an empty buffer; otherwise it loads
`storage[read_cursor & mask]` into the out-parameter, advances the read
cursor by one (`size_t` increment), returns true, and leaves the write
cursor and the storage alone. -/
theorem C5_read_semantics {T : Type} [Inhabited T] {S : Nat}
    (b : ring_buffer T S) (x : T) :
    (b.is_empty = true → b.read x = (false, x, b)) ∧
    (b.is_empty = false →
      (b.read x).1 = true ∧
      (b.read x).2.1 = b.m_storage.getD (b.m_cread &&& mask S) default ∧
      (b.read x).2.2.m_cread = (b.m_cread + 1) % W ∧
      (b.read x).2.2.m_cwrite = b.m_cwrite ∧
      (b.read x).2.2.m_storage = b.m_storage) := by
  refine ⟨read_empty b x, fun h => ?_⟩
  rw [read_nonempty b x h]
  exact ⟨rfl, rfl, rfl, rfl, rfl⟩

/-- Witness for C5: a failed read on a fresh buffer and a successful
read on a one-element buffer. -/
theorem C5_witness :
    (init [0, 0, 0, 0] : ring_buffer Nat 4).read 9 =
      (false, 9, (init [0, 0, 0, 0] : ring_buffer Nat 4)) ∧
    ((⟨[3], 1, 0⟩ : ring_buffer Nat 1).read 9).1 = true :=
  ⟨(C5_read_semantics (init [0, 0, 0, 0] : ring_buffer Nat 4) 9).1 (by decide),
   ((C5_read_semantics (⟨[3], 1, 0⟩ : ring_buffer Nat 1) 9).2 (by decide)).1⟩

/-- C10: a read on an empty buffer leaves the caller's out-parameter
completely unchanged, touching neither the buffer nor the variable
passed to receive the element. -/
theorem C10_failed_read_frame {T : Type} [Inhabited T] {S : Nat}
    (b : ring_buffer T S) (x : T) (he : b.is_empty = true) :
    (b.read x).1 = false ∧ (b.read x).2.1 = x ∧ (b.read x).2.2 = b := by
  rw [read_empty b x he]
  exact ⟨rfl, rfl, rfl⟩

/-- Witness for C10 at a fresh buffer with out-parameter 42. -/
theorem C10_witness :
    ((init [0, 0, 0, 0] : ring_buffer Nat 4).read 42).1 = false ∧
    ((init [0, 0, 0, 0] : ring_buffer Nat 4).read 42).2.1 = 42 ∧
    ((init [0, 0, 0, 0] : ring_buffer Nat 4).read 42).2.2 =
      (init [0, 0, 0, 0] : ring_buffer Nat 4) :=
  C10_failed_read_frame (init [0, 0, 0, 0] : ring_buffer Nat 4) 42 (by decide)

/-- C8: a freshly constructed buffer is empty with `count() = 0`;
`clear()` sets both cursors to zero without modifying any storage slot,
and the cleared buffer is empty with `count() = 0`. -/
theorem C8_clear_resets_cursors {T : Type} [Inhabited T] {S : Nat}
    (st : List T) (b : ring_buffer T S) :
    (init (S := S) st).is_empty = true ∧ (init (S := S) st).count = 0 ∧
    b.clear.m_cwrite = 0 ∧ b.clear.m_cread = 0 ∧
    b.clear.m_storage = b.m_storage ∧
    b.clear.is_empty = true ∧ b.clear.count = 0 := by
  refine ⟨rfl, ?_, rfl, rfl, rfl, rfl, ?_⟩
  · simp [count, usub, init, Nat.mod_self]
  · simp [count, usub, clear, Nat.mod_self]

/-- C9: the capacity-4 scenario: writes of 1, 2, 3, 4 all succeed and
fill the buffer; a fifth write fails; a read yields 1 leaving three
elements; writing 5 succeeds and fills the buffer again; four reads
then yield 2, 3, 4, 5 in order, the write cursor having wrapped. -/
theorem C9_wraparound_scenario :
    (write_seq demo0 [1, 2, 3, 4]).1 = true ∧
    demo4.is_full = true ∧
    (demo4.write 5).1 = false ∧
    demo4.readOpt.1 = some 1 ∧
    demo5.count = 3 ∧
    (demo5.write 5).1 = true ∧
    demo6.is_full = true ∧
    (read_n demo6 4).1 = [2, 3, 4, 5] := by decide

/-- C6 counterexample: with capacity 4, an empty buffer, source `[5]`
and `len = -1`, the stated failure condition (`len == 0` or free
capacity `< len`) does not hold, yet the bulk write returns `false`:
the signed length converts to a huge unsigned value in the comparison
against the unsigned free space. -/
theorem C6_counterexample :
    ((-1 : Int) ≠ 0) ∧
    ¬((4 : Int) - ((init [0, 0, 0, 0] : ring_buffer Nat 4).count : Int) < -1) ∧
    ((init [0, 0, 0, 0] : ring_buffer Nat 4).write_bulk [5] (-1)).1 = false := by
  exact ⟨by decide, by decide, by decide⟩

/-- C6 (amended): for any `ssize_t` length, the bulk write returns
false with no state change whenever `len ≤ 0` (not just `len = 0`) or
the free capacity `capacity() - count()` is less than `len`; otherwise
(`0 < len ≤ ` free capacity) it performs `len` successive
single-element writes of the source elements in order and returns
true. -/
theorem C6_bulk_write_amended {T : Type} [Inhabited T] {S k : Nat}
    (hS : S = 2 ^ k) (hk : k ≤ 62) (b : ring_buffer T S) (ps : List T)
    (len : Int) (hlo : -(2 ^ 63) ≤ len) (hhi : len < 2 ^ 63) :
    (len ≤ 0 ∨ (S : Int) - (b.count : Int) < len →
      b.write_bulk ps len = (false, b)) ∧
    (0 < len → len ≤ (S : Int) - (b.count : Int) →
      b.write_bulk ps len = (true, run_writes b (bulk_items ps len.toNat))) := by
  have hS0 : 0 < S := by rw [hS]; exact Nat.pos_pow_of_pos k (by norm_num)
  have hcS : b.count < S := by
    rw [count_eq_mod hS b]
    exact Nat.mod_lt _ hS0
  have hSle : S ≤ 4611686018427387904 := by
    rw [hS]
    calc (2 : Nat) ^ k ≤ 2 ^ 62 := Nat.pow_le_pow_right (by norm_num) hk
    _ = 4611686018427387904 := by norm_num
  have husub : usub S b.count = S - b.count := by
    unfold usub W
    omega
  have hlo' : -(9223372036854775808 : Int) ≤ len := by
    calc -(9223372036854775808 : Int) = -(2 ^ 63) := by norm_num
    _ ≤ len := hlo
  have hhi' : len < 9223372036854775808 := by
    calc len < 2 ^ 63 := hhi
    _ = (9223372036854775808 : Int) := by norm_num
  constructor
  · intro hfail
    have hguard : len = 0 ∨ usub S b.count < toUns len := by
      rw [husub]
      unfold toUns
      omega
    unfold write_bulk
    rw [if_pos hguard]
  · intro hpos hle
    have hguard : ¬(len = 0 ∨ usub S b.count < toUns len) := by
      rw [husub]
      unfold toUns
      omega
    unfold write_bulk
    rw [if_neg hguard]

/-- Witness for the amended C6: bulk-writing two elements into a fresh
capacity-4 buffer succeeds and equals two successive single writes. -/
theorem C6_amended_witness :
    (init [0, 0, 0, 0] : ring_buffer Nat 4).write_bulk [7, 8] 2 =
      (true, run_writes (init [0, 0, 0, 0] : ring_buffer Nat 4)
        (bulk_items [7, 8] (2 : Int).toNat)) :=
  (C6_bulk_write_amended (k := 2) rfl (by norm_num)
    (init [0, 0, 0, 0] : ring_buffer Nat 4) [7, 8] 2 (by norm_num)
    (by norm_num)).2 (by norm_num) (by decide)

/-- C7: `operator[](i)` (and with it `first() = operator[](0)` and
`last() = operator[](count() - 1)`) raises the out-of-range error
exactly when the buffer is empty or `i > count()` — so `i == count()`
passes the check, exposing the slot one past the logical last element —
and otherwise returns `storage[(read_cursor + i) & mask]`. -/
theorem C7_index_bounds {T : Type} [Inhabited T] {S : Nat}
    (b : ring_buffer T S) (i : Nat) :
    (b.get_at i =
        Except.error "index located in invalid range for access ring buffer" ↔
      (b.is_empty = true ∨ i > b.count)) ∧
    (b.is_empty = false → i ≤ b.count →
      b.get_at i =
        Except.ok (b.m_storage.getD (((b.m_cread + i) % W) &&& mask S) default)) ∧
    b.first = b.get_at 0 ∧
    b.last = b.get_at (usub b.count 1) := by
  have hcond : (b.is_empty || decide (i > b.count)) = true ↔
      (b.is_empty = true ∨ i > b.count) := by
    simp [Bool.or_eq_true, decide_eq_true_eq]
  refine ⟨?_, ?_, rfl, rfl⟩
  · by_cases hc : (b.is_empty || decide (i > b.count)) = true
    · simp only [get_at, hc, if_true]
      exact ⟨fun _ => hcond.mp hc, fun _ => by trivial⟩
    · have hc' : (b.is_empty || decide (i > b.count)) = false := by
        rw [← Bool.not_eq_true]
        exact hc
      simp only [get_at, hc', Bool.false_eq_true, if_false]
      exact iff_of_false (by simp) (fun hp => hc (hcond.mpr hp))
  · intro h1 h2
    have hc : (b.is_empty || decide (i > b.count)) = false := by
      rw [h1, Bool.false_or, decide_eq_false_iff_not]
      omega
    simp only [get_at, hc, Bool.false_eq_true, if_false]

/-- Witness for C7: indexing a fresh (empty) buffer errors, and
indexing a one-element buffer at 0 yields the element. -/
theorem C7_witness :
    (init [0, 0, 0, 0] : ring_buffer Nat 4).get_at 0 =
      Except.error "index located in invalid range for access ring buffer" ∧
    (⟨[3], 1, 0⟩ : ring_buffer Nat 1).get_at 0 = Except.ok 3 := by
  constructor
  · exact (C7_index_bounds (init [0, 0, 0, 0] : ring_buffer Nat 4) 0).1.mpr
      (Or.inl (by decide))
  · rw [(C7_index_bounds (⟨[3], 1, 0⟩ : ring_buffer Nat 1) 0).2.1
      (by decide) (by decide)]
    simp [mask]
